import Mathlib

/-!
Shallow embedding of src/voting_with_delegation.py (class VotingWithDelegation).

Modelling conventions:
* Addresses are modelled as canonical strings (the source canonicalizes every
  input with the external to_checksum_address before any lookup or storage;
  in the model all addresses are already in canonical form, so the
  canonicalization is the identity).
* Python dicts are modelled as association lists with first-match lookup;
  dict assignment replaces the first binding in place or appends a fresh one,
  dict pop removes the key's bindings.  These are exactly the dict semantics
  on states with unique keys, which is all a dict can hold.
* Python exceptions are modelled by returning the state as it was at the
  raise point together with an error value: a mutating operation returns
  (state, Option Err) (none means normal return), so that atomicity claims
  about failing calls are real statements about where mutation happens.
* time.time() is read once per call in the source and passed here as an
  explicit now argument; Python ints are modelled as Int.
* The external EIP-712 signature recovery (EIP712DelegationVerifier
  .recover_delegator, a pure function of message and signature that either
  returns an address or fails) is a parameter
  recover : DelegationMessage -> String -> Option Addr.
-/

namespace VotingDel

abbrev Addr := String

/-- The error taxonomy: each constructor corresponds to one distinct
ValueError message raised by the source (plus signatureInvalid for a
failure inside the external recovery primitive). -/
inductive Err where
  | invalidWeight
  | expired
  | nonceMismatch
  | signatureInvalid
  | notDelegator
  | cycleDetected
  | duplicateProposal
  | invalidClosingTime
  | unknownProposal
  | invalidChoice
  | votingClosed
  | delegatedVoterCannotVote
  | alreadyVoted
  | noVotingPower
  deriving DecidableEq, Repr

/-- The frozen dataclass DelegationMessage. -/
structure DelegationMessage where
  delegator : Addr
  delegatee : Addr
  nonce : Int
  deadline : Int
  deriving DecidableEq, Repr

/-- First-match lookup in an association list (dict lookup). -/
def lookupA {β : Type} (m : List (Addr × β)) (k : Addr) : Option β :=
  match m with
  | [] => none
  | (k', v) :: rest => if k' = k then some v else lookupA rest k

/-- Dict lookup with default: m.get(k, d). -/
def lookupD {β : Type} (m : List (Addr × β)) (k : Addr) (d : β) : β :=
  (lookupA m k).getD d

/-- Dict assignment m[k] = v: replace the first binding of k in place, or
append a fresh binding. -/
def setk {β : Type} (m : List (Addr × β)) (k : Addr) (v : β) : List (Addr × β) :=
  match m with
  | [] => [(k, v)]
  | (k', v') :: rest => if k' = k then (k, v) :: rest else (k', v') :: setk rest k v

/-- Dict removal m.pop(k, None): drop the bindings of k. -/
def delk {β : Type} (m : List (Addr × β)) (k : Addr) : List (Addr × β) :=
  m.filter (fun p => p.1 ≠ k)

/-- The keys of the delegation map, as a finset (used only to bound the
walks, mirroring "seen set bounded by graph size"). -/
def keysF {β : Type} (m : List (Addr × β)) : Finset Addr :=
  (m.map Prod.fst).toFinset

theorem lookupA_setk_self {β : Type} (m : List (Addr × β)) (k : Addr) (v : β) :
    lookupA (setk m k v) k = some v := by
  induction m with
  | nil => simp [setk, lookupA]
  | cons p rest ih =>
    by_cases h : p.1 = k
    · simp [setk, h, lookupA]
    · simp [setk, h, lookupA, ih]

theorem lookupA_setk_ne {β : Type} (m : List (Addr × β)) (k a : Addr) (v : β)
    (h : a ≠ k) : lookupA (setk m k v) a = lookupA m a := by
  induction m with
  | nil => simp [setk, lookupA, Ne.symm h]
  | cons p rest ih =>
    by_cases hk : p.1 = k
    · subst hk
      simp [setk, lookupA, Ne.symm h]
    · simp only [setk, if_neg hk, lookupA]
      by_cases ha : p.1 = a
      · simp [ha]
      · simp [ha, ih]

theorem lookupA_delk_self {β : Type} (m : List (Addr × β)) (k : Addr) :
    lookupA (delk m k) k = none := by
  induction m with
  | nil => simp [delk, lookupA]
  | cons p rest ih =>
    by_cases h : p.1 = k
    · simpa [delk, h] using ih
    · simpa [delk, h, lookupA] using ih

theorem lookupA_delk_ne {β : Type} (m : List (Addr × β)) (k a : Addr)
    (h : a ≠ k) : lookupA (delk m k) a = lookupA m a := by
  induction m with
  | nil => rfl
  | cons p rest ih =>
    by_cases hk : p.1 = k
    · have hpa : ¬ p.1 = a := fun hc => h (hc.symm.trans hk)
      have h1 : delk (p :: rest) k = delk rest k := by
        simp [delk, List.filter_cons, hk]
      rw [h1, ih]
      simp [lookupA, hpa]
    · have h1 : delk (p :: rest) k = p :: delk rest k := by
        simp [delk, List.filter_cons, hk]
      rw [h1]
      simp only [lookupA, ih]

theorem lookupA_some_mem_keysF {β : Type} (m : List (Addr × β)) (k : Addr) (v : β)
    (h : lookupA m k = some v) : k ∈ keysF m := by
  induction m with
  | nil => simp [lookupA] at h
  | cons p rest ih =>
    by_cases hk : p.1 = k
    · simp [keysF, hk.symm]
    · simp only [lookupA, if_neg hk] at h
      have := ih h
      simp only [keysF, List.map_cons, List.toFinset_cons, Finset.mem_insert]
      exact Or.inr (by simpa [keysF] using this)

/-- Loop body of VotingWithDelegation._would_create_cycle:
while current in delegate_of: if current in seen: return True;
seen.add(current); current = delegate_of[current];
if current == start: return True.  Terminates because each iteration adds
a fresh key of the graph to seen (the seen set is bounded by graph size). -/
def wouldCreateCycleAux (g : List (Addr × Addr)) (start : Addr)
    (current : Addr) (seen : Finset Addr) : Bool :=
  match h : lookupA g current with
  | none => false
  | some nxt =>
    if current ∈ seen then true
    else if nxt = start then true
    else wouldCreateCycleAux g start nxt (insert current seen)
termination_by (keysF g \ seen).card
decreasing_by
  have hmem : current ∈ keysF g \ seen := Finset.mem_sdiff.mpr
    ⟨lookupA_some_mem_keysF g current nxt h, by assumption⟩
  calc (keysF g \ insert current seen).card
      = ((keysF g \ seen).erase current).card := by rw [Finset.sdiff_insert]
    _ < (keysF g \ seen).card := Finset.card_erase_lt_of_mem hmem

/-- VotingWithDelegation._would_create_cycle(start, next_hop). -/
def wouldCreateCycle (g : List (Addr × Addr)) (start nextHop : Addr) : Bool :=
  wouldCreateCycleAux g start nextHop ∅

/-- Loop body of VotingWithDelegation._resolve_final_delegate:
while current in delegate_of: if current in seen: break;
seen.add(current); current = delegate_of[current]; finally return current. -/
def resolveAux (g : List (Addr × Addr)) (current : Addr) (seen : Finset Addr) : Addr :=
  match h : lookupA g current with
  | none => current
  | some nxt =>
    if current ∈ seen then current
    else resolveAux g nxt (insert current seen)
termination_by (keysF g \ seen).card
decreasing_by
  have hmem : current ∈ keysF g \ seen := Finset.mem_sdiff.mpr
    ⟨lookupA_some_mem_keysF g current nxt h, by assumption⟩
  calc (keysF g \ insert current seen).card
      = ((keysF g \ seen).erase current).card := by rw [Finset.sdiff_insert]
    _ < (keysF g \ seen).card := Finset.card_erase_lt_of_mem hmem

/-- VotingWithDelegation._resolve_final_delegate. -/
def resolveFinalDelegate (g : List (Addr × Addr)) (addr : Addr) : Addr :=
  resolveAux g addr ∅

/-- VotingWithDelegation._set_delegate, with the mutation made explicit:
returns the delegation map after the call together with the error, if any
(the source raises before assigning on the cycle path, so the map comes
back unchanged there). -/
def setDelegate (g : List (Addr × Addr)) (delegator delegatee : Addr) :
    List (Addr × Addr) × Option Err :=
  if delegator = delegatee then (delk g delegator, none)
  else if wouldCreateCycle g delegator delegatee then (g, some Err.cycleDetected)
  else (setk g delegator delegatee, none)

/-- n-fold iteration of the delegation edge map viewed as a partial
function: stepN g n a = the node reached from a after following exactly
n delegation edges, or none if the chain ends earlier. -/
def stepN (g : List (Addr × Addr)) : Nat → Addr → Option Addr
  | 0, a => some a
  | n + 1, a =>
    match lookupA g a with
    | none => none
    | some b => stepN g n b

/-- The delegation edge map, viewed as a directed graph, has no cycle:
no node returns to itself after one or more edge steps. -/
def Acyclic (g : List (Addr × Addr)) : Prop :=
  ∀ a n, stepN g (n + 1) a ≠ some a

/-- A proposal record: {"title", "description", "closes_at", "tallies",
"voted"}.  The tallies dict is an association list over the choice strings;
the voted set only ever grows by elements checked to be absent, so a plain
list of addresses models it. -/
structure Proposal where
  title : String
  description : String
  closesAt : Int
  tallies : List (String × Int)
  voted : List Addr
  deriving DecidableEq, Repr

/-- The four dicts owned by a VotingWithDelegation instance
(the verifier is the external recovery parameter). -/
structure VotingState where
  voterWeight : List (Addr × Int)
  delegateOf : List (Addr × Addr)
  nonceOf : List (Addr × Int)
  proposals : List (String × Proposal)
  deriving DecidableEq, Repr

/-- The state of a freshly constructed ledger: all four dicts empty. -/
def initialState : VotingState := ⟨[], [], [], []⟩

/-- VotingWithDelegation.add_voter.  The weight check precedes both
mutations; a nonce entry is created (at 0) only if absent. -/
def addVoter (st : VotingState) (address : Addr) (weight : Int) :
    VotingState × Option Err :=
  if weight < 0 then (st, some Err.invalidWeight)
  else
    ({ st with
        voterWeight := setk st.voterWeight address weight,
        nonceOf :=
          if (lookupA st.nonceOf address).isSome then st.nonceOf
          else setk st.nonceOf address 0 },
     none)

/-- VotingWithDelegation.get_nonce: stored nonce, defaulting to 0. -/
def getNonce (st : VotingState) (delegator : Addr) : Int :=
  lookupD st.nonceOf delegator 0

/-- VotingWithDelegation.apply_delegation_signature, with the external
EIP-712 recovery passed in as recover (none models a recovery failure).
Each raise returns the state as it was at that point. -/
def applyDelegationSignature
    (recover : DelegationMessage → String → Option Addr)
    (now : Int) (st : VotingState) (signature : String)
    (delegator delegatee : Addr) (nonce deadline : Int) :
    VotingState × Option Err :=
  if now > deadline then (st, some Err.expired)
  else
    let msg : DelegationMessage := ⟨delegator, delegatee, nonce, deadline⟩
    let expectedNonce := getNonce st msg.delegator
    if msg.nonce ≠ expectedNonce then (st, some Err.nonceMismatch)
    else
      match recover msg signature with
      | none => (st, some Err.signatureInvalid)
      | some recovered =>
        if recovered ≠ msg.delegator then (st, some Err.notDelegator)
        else
          match setDelegate st.delegateOf msg.delegator msg.delegatee with
          | (g, some e) => ({ st with delegateOf := g }, some e)
          | (g, none) =>
            ({ st with
                delegateOf := g,
                nonceOf := setk st.nonceOf msg.delegator (expectedNonce + 1) },
             none)

/-- VotingWithDelegation.get_effective_voting_power_map: fold over the
voter-weight dict, skipping zero weights and adding each remaining weight
into its final delegate's bucket. -/
def getEffectivePowerMap (st : VotingState) : List (Addr × Int) :=
  st.voterWeight.foldl
    (fun power p =>
      if p.2 = 0 then power
      else
        setk power (resolveFinalDelegate st.delegateOf p.1)
          (lookupD power (resolveFinalDelegate st.delegateOf p.1) 0 + p.2))
    []

/-- VotingWithDelegation.get_effective_voting_power: resolve the final
delegate and look up its bucket, defaulting to 0. -/
def getEffectiveVotingPower (st : VotingState) (address : Addr) : Int :=
  lookupD (getEffectivePowerMap st) (resolveFinalDelegate st.delegateOf address) 0

/-- VotingWithDelegation.create_proposal. -/
def createProposal (now : Int) (st : VotingState)
    (proposalId title description : String) (closesAt : Int) :
    VotingState × Option Err :=
  if (lookupA st.proposals proposalId).isSome then
    (st, some Err.duplicateProposal)
  else if closesAt ≤ now then (st, some Err.invalidClosingTime)
  else
    ({ st with
        proposals := setk st.proposals proposalId
          ⟨title, description, closesAt,
           [("yes", 0), ("no", 0), ("abstain", 0)], []⟩ },
     none)

/-- VotingWithDelegation.vote.  On success returns the updated state with
the cast weight and the snapshot of the tallies taken after the update; on
failure returns the state at the raise point (no raise follows a mutation). -/
def vote (now : Int) (st : VotingState) (proposalId : String)
    (voter : Addr) (choice : String) :
    VotingState × Except Err (Int × List (String × Int)) :=
  match lookupA st.proposals proposalId with
  | none => (st, Except.error Err.unknownProposal)
  | some prop =>
    if ¬ (choice = "yes" ∨ choice = "no" ∨ choice = "abstain") then
      (st, Except.error Err.invalidChoice)
    else if now > prop.closesAt then (st, Except.error Err.votingClosed)
    else
      let finalHolder := resolveFinalDelegate st.delegateOf voter
      if voter ≠ finalHolder then
        (st, Except.error Err.delegatedVoterCannotVote)
      else if finalHolder ∈ prop.voted then
        (st, Except.error Err.alreadyVoted)
      else
        let weight := lookupD (getEffectivePowerMap st) finalHolder 0
        if weight ≤ 0 then (st, Except.error Err.noVotingPower)
        else
          let newTallies :=
            setk prop.tallies choice (lookupD prop.tallies choice 0 + weight)
          ({ st with
              proposals := setk st.proposals proposalId
                { prop with
                    tallies := newTallies,
                    voted := finalHolder :: prop.voted } },
           Except.ok (weight, newTallies))

/-- VotingWithDelegation.get_results. -/
def getResults (st : VotingState) (proposalId : String) :
    Except Err (List (String × Int)) :=
  match lookupA st.proposals proposalId with
  | none => Except.error Err.unknownProposal
  | some prop => Except.ok prop.tallies

/-- VotingWithDelegation.is_open. -/
def isOpen (now : Int) (st : VotingState) (proposalId : String) :
    Except Err Bool :=
  match lookupA st.proposals proposalId with
  | none => Except.error Err.unknownProposal
  | some prop => Except.ok (decide (now ≤ prop.closesAt))

/-- The ledger states reachable from a fresh instance by any sequence of
calls to the four mutating operations (with arbitrary arguments, times and
recovery oracles; failed calls leave the state they returned, which the
model threads through explicitly). -/
inductive Reachable : VotingState → Prop where
  | init : Reachable initialState
  | addVoter (st : VotingState) (a : Addr) (w : Int) :
      Reachable st → Reachable (addVoter st a w).1
  | applyDelegation (st : VotingState)
      (recover : DelegationMessage → String → Option Addr)
      (now : Int) (sig : String) (d e : Addr) (n dl : Int) :
      Reachable st →
      Reachable (applyDelegationSignature recover now st sig d e n dl).1
  | createProposal (st : VotingState) (now : Int) (pid title descr : String)
      (closesAt : Int) :
      Reachable st → Reachable (createProposal now st pid title descr closesAt).1
  | vote (st : VotingState) (now : Int) (pid : String) (voter : Addr)
      (choice : String) :
      Reachable st → Reachable (vote now st pid voter choice).1

/-- Sum of the values of a dict. -/
def valueSum {β : Type} [AddCommMonoid β] (m : List (Addr × β)) : β :=
  (m.map Prod.snd).sum

/-- Sum of the positive entries of the voter-weight dict. -/
def posWeightSum : List (Addr × Int) → Int
  | [] => 0
  | p :: rest => (if 0 < p.2 then p.2 else 0) + posWeightSum rest

/-- Sum of the non-zero entries of the voter-weight dict (what the
aggregation loop actually adds up, since it skips zero weights). -/
def nonzeroWeightSum : List (Addr × Int) → Int
  | [] => 0
  | p :: rest => (if p.2 = 0 then 0 else p.2) + nonzeroWeightSum rest

/-- The fresh proposal record stored by create_proposal: zero tallies for
yes, no, abstain, and an empty voted set. -/
def mkProposal (title descr : String) (closesAt : Int) : Proposal :=
  ⟨title, descr, closesAt, [("yes", 0), ("no", 0), ("abstain", 0)], []⟩

/-- A recovery oracle modelling a correctly signed statement: recovery
returns the statement's delegator (a valid self-signature), whatever the
signature string. -/
def recoverOk : DelegationMessage → String → Option Addr :=
  fun msg _ => some msg.delegator

/-- The state with voter "0xa" of weight 100 and voter "0xb" of weight 50
registered and nothing else done. -/
def stPreAB : VotingState :=
  (addVoter ((addVoter initialState "0xa" 100).1) "0xb" 50).1

/-- The run of the spec scenario "voter A weight 100, B weight 50;
A delegates to B (nonce 0, valid signature, deadline in the future)",
with A = "0xa", B = "0xb", at time 0 with deadline 1000. -/
def scenarioABRun : VotingState × Option Err :=
  applyDelegationSignature recoverOk 0 stPreAB "sig" "0xa" "0xb" 0 1000

/-- The ledger state after the A/B scenario run. -/
def scenarioAB : VotingState := scenarioABRun.1

/-- A run in which only "0xa" was registered (weight 100) and "0xa"
delegates to the never-registered "0xb". -/
def scenarioUnregRun : VotingState × Option Err :=
  applyDelegationSignature recoverOk 0 ((addVoter initialState "0xa" 100).1)
    "sig" "0xa" "0xb" 0 1000

/-- The ledger state after the unregistered-delegatee run. -/
def scenarioUnreg : VotingState := scenarioUnregRun.1

/-- The unregistered-delegatee state with an open proposal "p1" added. -/
def scenarioUnregProp : VotingState :=
  (createProposal 0 scenarioUnreg "p1" "t" "d" 1000).1

/-- The A/B scenario state with an open proposal "p1" added. -/
def scenarioABProp : VotingState :=
  (createProposal 0 scenarioAB "p1" "t" "d" 1000).1

theorem wouldCreateCycleAux_none (g : List (Addr × Addr)) (start current : Addr)
    (seen : Finset Addr) (h : lookupA g current = none) :
    wouldCreateCycleAux g start current seen = false := by
  rw [wouldCreateCycleAux.eq_def]
  split
  · rfl
  · rename_i nxt heq
    rw [h] at heq
    exact Option.noConfusion heq

theorem wouldCreateCycleAux_some (g : List (Addr × Addr)) (start current nxt : Addr)
    (seen : Finset Addr) (h : lookupA g current = some nxt) :
    wouldCreateCycleAux g start current seen =
      (if current ∈ seen then true
       else if nxt = start then true
       else wouldCreateCycleAux g start nxt (insert current seen)) := by
  rw [wouldCreateCycleAux.eq_def]
  split
  · rename_i heq
    rw [h] at heq
    exact Option.noConfusion heq
  · rename_i nxt' heq
    rw [h] at heq
    cases heq
    rfl

theorem resolveAux_none (g : List (Addr × Addr)) (current : Addr)
    (seen : Finset Addr) (h : lookupA g current = none) :
    resolveAux g current seen = current := by
  rw [resolveAux.eq_def]
  split
  · rfl
  · rename_i nxt heq
    rw [h] at heq
    exact Option.noConfusion heq

theorem resolveAux_some (g : List (Addr × Addr)) (current nxt : Addr)
    (seen : Finset Addr) (h : lookupA g current = some nxt) :
    resolveAux g current seen =
      (if current ∈ seen then current
       else resolveAux g nxt (insert current seen)) := by
  rw [resolveAux.eq_def]
  split
  · rename_i heq
    rw [h] at heq
    exact Option.noConfusion heq
  · rename_i nxt' heq
    rw [h] at heq
    cases heq
    rfl

theorem stepN_add (g : List (Addr × Addr)) (m n : Nat) (a : Addr) :
    stepN g (m + n) a = (stepN g m a).bind (stepN g n) := by
  induction m generalizing a with
  | zero => simp [stepN]
  | succ m ih =>
    have hm : m + 1 + n = (m + n) + 1 := by omega
    rw [hm]
    cases hl : lookupA g a with
    | none => simp [stepN, hl]
    | some b => simp [stepN, hl, ih]

/-- Deleting a node's outgoing edge only removes paths. -/
theorem stepN_delk (g : List (Addr × Addr)) (d : Addr) (n : Nat) (a b : Addr)
    (h : stepN (delk g d) n a = some b) : stepN g n a = some b := by
  induction n generalizing a with
  | zero => simpa [stepN] using h
  | succ n ih =>
    by_cases hd : a = d
    · rw [hd] at h
      simp [stepN, lookupA_delk_self] at h
    · rw [stepN, lookupA_delk_ne g d a hd] at h
      cases hl : lookupA g a with
      | none => rw [hl] at h; exact absurd h (by simp)
      | some c =>
        rw [hl] at h
        rw [stepN, hl]
        exact ih c h

theorem acyclic_delk (g : List (Addr × Addr)) (d : Addr) (h : Acyclic g) :
    Acyclic (delk g d) := by
  intro a n hc
  exact h a n (stepN_delk g d (n + 1) a a hc)

/-- A path in the updated graph setk g d e that never passes through d is a
path of the original graph. -/
theorem stepN_setk_avoid (g : List (Addr × Addr)) (d e : Addr) (n : Nat) (a : Addr)
    (havoid : ∀ i, i < n → stepN (setk g d e) i a ≠ some d) :
    stepN (setk g d e) n a = stepN g n a := by
  induction n generalizing a with
  | zero => rfl
  | succ n ih =>
    have ha : a ≠ d := by
      intro hc
      exact havoid 0 (Nat.succ_pos n) (by simp [stepN, hc])
    rw [stepN, stepN, lookupA_setk_ne g d a e ha]
    cases hl : lookupA g a with
    | none => rfl
    | some b =>
      apply ih
      intro i hi hc
      apply havoid (i + 1) (by omega)
      rw [stepN, lookupA_setk_ne g d a e ha, hl]
      exact hc

/-- If the cycle walk returned false starting at cur, no chain of one or
more existing edges leads from cur to start. -/
theorem wouldCreateCycleAux_false (g : List (Addr × Addr)) (start : Addr)
    (current : Addr) (seen : Finset Addr)
    (hfalse : wouldCreateCycleAux g start current seen = false) :
    ∀ k, stepN g (k + 1) current ≠ some start := by
  induction current, seen using wouldCreateCycleAux.induct g start with
  | case1 current seen hnone =>
    intro k
    simp [stepN, hnone]
  | case2 current seen nxt hl hseen =>
    rw [wouldCreateCycleAux_some g start current nxt seen hl, if_pos hseen] at hfalse
    exact Bool.noConfusion hfalse
  | case3 current seen hseen hl =>
    rw [wouldCreateCycleAux_some g start current start seen hl, if_neg hseen,
      if_pos rfl] at hfalse
    exact Bool.noConfusion hfalse
  | case4 current seen nxt hl hseen hne ih =>
    rw [wouldCreateCycleAux_some g start current nxt seen hl, if_neg hseen,
      if_neg hne] at hfalse
    intro k hc
    rw [stepN, hl] at hc
    cases k with
    | zero => exact hne (by simpa [stepN] using hc)
    | succ k => exact ih hfalse k hc

/-- Inserting the edge d -> e into an acyclic graph keeps it acyclic,
provided no chain of existing edges leads from e back to d. -/
theorem acyclic_setk (g : List (Addr × Addr)) (d e : Addr)
    (hacy : Acyclic g) (hde : d ≠ e)
    (hnopath : ∀ k, stepN g (k + 1) e ≠ some d) :
    Acyclic (setk g d e) := by
  intro a n hc
  by_cases hthrough : ∃ i, i < n + 1 ∧ stepN (setk g d e) i a = some d
  · -- the cycle passes through d: rotate it to a cycle at d, step to e,
    -- cut at the first return to d, and contradict hnopath
    obtain ⟨i, hi, hstep⟩ := hthrough
    have hsplit : stepN (setk g d e) (n + 1) a =
        (stepN (setk g d e) i a).bind (stepN (setk g d e) (n + 1 - i)) := by
      rw [← stepN_add]
      congr 1
      omega
    rw [hsplit, hstep] at hc
    simp only [Option.some_bind] at hc
    -- hc : stepN g' (n + 1 - i) d = some a; compose back to a cycle at d
    have hcycle : stepN (setk g d e) (n + 1) d = some d := by
      have : stepN (setk g d e) ((n + 1 - i) + i) d =
          (stepN (setk g d e) (n + 1 - i) d).bind (stepN (setk g d e) i) := stepN_add ..
      rw [hc] at this
      simp only [Option.some_bind] at this
      rw [hstep] at this
      have harith : (n + 1 - i) + i = n + 1 := by omega
      rw [harith] at this
      exact this
    -- first step out of d goes to e
    rw [stepN, lookupA_setk_self] at hcycle
    -- hcycle : stepN (setk g d e) n e = some d; take the first hit of d
    have hex : ∃ j, stepN (setk g d e) j e = some d := ⟨n, hcycle⟩
    classical
    obtain ⟨j0, hj0, hmin⟩ : ∃ j0, stepN (setk g d e) j0 e = some d ∧
        ∀ i, i < j0 → stepN (setk g d e) i e ≠ some d :=
      ⟨Nat.find hex, Nat.find_spec hex, fun i hi => Nat.find_min hex hi⟩
    have hj0g : stepN g j0 e = some d := by
      rw [← stepN_setk_avoid g d e j0 e hmin]
      exact hj0
    cases j0 with
    | zero =>
      have hed : e = d := by simpa [stepN] using hj0g
      exact hde hed.symm
    | succ j => exact hnopath j hj0g
  · -- the cycle avoids d entirely, so it is a cycle of g
    push_neg at hthrough
    rw [stepN_setk_avoid g d e (n + 1) a hthrough] at hc
    exact hacy a n hc

theorem mem_setk {β : Type} (m : List (Addr × β)) (k : Addr) (v : β) (p : Addr × β)
    (h : p ∈ setk m k v) : p ∈ m ∨ p = (k, v) := by
  induction m with
  | nil => simp [setk] at h; simp [h]
  | cons q rest ih =>
    by_cases hk : q.1 = k
    · rw [setk, if_pos hk] at h
      rcases List.mem_cons.mp h with h1 | h1
      · right; exact h1
      · left; exact List.mem_cons_of_mem q h1
    · rw [setk, if_neg hk] at h
      rcases List.mem_cons.mp h with h1 | h1
      · left; simp [h1]
      · rcases ih h1 with h2 | h2
        · left; exact List.mem_cons_of_mem q h2
        · right; exact h2

/-- add_voter touches only the weight and nonce dicts. -/
theorem addVoter_frame (st : VotingState) (a : Addr) (w : Int) :
    (addVoter st a w).1.delegateOf = st.delegateOf ∧
    (addVoter st a w).1.proposals = st.proposals := by
  unfold addVoter
  split <;> simp

/-- apply_delegation_signature touches only the delegation and nonce dicts. -/
theorem applyDelegation_frame (recover : DelegationMessage → String → Option Addr)
    (now : Int) (st : VotingState) (sig : String) (d e : Addr) (n dl : Int) :
    (applyDelegationSignature recover now st sig d e n dl).1.voterWeight =
      st.voterWeight ∧
    (applyDelegationSignature recover now st sig d e n dl).1.proposals =
      st.proposals := by
  simp only [applyDelegationSignature]
  split
  · simp
  · split
    · simp
    · cases recover ⟨d, e, n, dl⟩ sig with
      | none => simp
      | some r =>
        simp only
        split
        · simp
        · split <;> simp

/-- The delegation dict after apply_delegation_signature is either untouched
or exactly the dict produced by _set_delegate. -/
theorem applyDelegation_delegateOf (recover : DelegationMessage → String → Option Addr)
    (now : Int) (st : VotingState) (sig : String) (d e : Addr) (n dl : Int) :
    (applyDelegationSignature recover now st sig d e n dl).1.delegateOf =
      st.delegateOf ∨
    (applyDelegationSignature recover now st sig d e n dl).1.delegateOf =
      (setDelegate st.delegateOf d e).1 := by
  simp only [applyDelegationSignature]
  split
  · left; rfl
  · split
    · left; rfl
    · cases recover ⟨d, e, n, dl⟩ sig with
      | none => left; rfl
      | some r =>
        simp only
        split
        · left; rfl
        · cases hsd : setDelegate st.delegateOf d e with
          | mk g err =>
            cases err with
            | none => right; simp [hsd]
            | some e' => right; simp [hsd]

/-- create_proposal touches only the proposal dict. -/
theorem createProposal_frame (now : Int) (st : VotingState)
    (pid title descr : String) (closesAt : Int) :
    (createProposal now st pid title descr closesAt).1.voterWeight = st.voterWeight ∧
    (createProposal now st pid title descr closesAt).1.delegateOf = st.delegateOf ∧
    (createProposal now st pid title descr closesAt).1.nonceOf = st.nonceOf := by
  unfold createProposal
  split
  · simp
  · split <;> simp

/-- vote touches only the proposal dict. -/
theorem vote_frame (now : Int) (st : VotingState) (pid : String)
    (voter : Addr) (choice : String) :
    (vote now st pid voter choice).1.voterWeight = st.voterWeight ∧
    (vote now st pid voter choice).1.delegateOf = st.delegateOf ∧
    (vote now st pid voter choice).1.nonceOf = st.nonceOf := by
  unfold vote
  cases lookupA st.proposals pid with
  | none => simp
  | some prop =>
    simp only
    split
    · simp
    · split
      · simp
      · split
        · simp
        · split
          · simp
          · split <;> simp

/-- The function _set_delegate never breaks acyclicity: cancellation only deletes an
edge, a detected cycle leaves the dict untouched, and a committed edge was
checked by the forward walk. -/
theorem setDelegate_acyclic (g : List (Addr × Addr)) (d e : Addr)
    (h : Acyclic g) : Acyclic (setDelegate g d e).1 := by
  unfold setDelegate
  split
  · exact acyclic_delk g d h
  · split
    · exact h
    · rename_i hde hcyc
      apply acyclic_setk g d e h hde
      exact wouldCreateCycleAux_false g d e ∅ (by simpa [wouldCreateCycle] using hcyc)

/-- Invariant: the delegation dict of every reachable ledger state is
acyclic. -/
theorem reachable_acyclic (st : VotingState) (h : Reachable st) :
    Acyclic st.delegateOf := by
  induction h with
  | init => intro a n hc; cases n <;> simp [stepN, lookupA, initialState] at hc
  | addVoter st a w hr ih => rw [(addVoter_frame st a w).1]; exact ih
  | applyDelegation st recover now sig d e n dl hr ih =>
    rcases applyDelegation_delegateOf recover now st sig d e n dl with h1 | h1
    · rw [h1]; exact ih
    · rw [h1]; exact setDelegate_acyclic st.delegateOf d e ih
  | createProposal st now pid title descr closesAt hr ih =>
    rw [(createProposal_frame now st pid title descr closesAt).2.1]; exact ih
  | vote st now pid voter choice hr ih =>
    rw [(vote_frame now st pid voter choice).2.1]; exact ih

/-- Invariant: every stored voter weight is non-negative (add_voter is the
only writer and rejects negative weights). -/
theorem reachable_weights_nonneg (st : VotingState) (h : Reachable st) :
    ∀ p ∈ st.voterWeight, 0 ≤ p.2 := by
  induction h with
  | init => intro p hp; simp [initialState] at hp
  | addVoter st a w hr ih =>
    intro p hp
    unfold addVoter at hp
    by_cases hw : w < 0
    · rw [if_pos hw] at hp; exact ih p hp
    · rw [if_neg hw] at hp
      simp only at hp
      rcases mem_setk st.voterWeight a w p hp with h1 | h1
      · exact ih p h1
      · rw [h1]; simpa using le_of_not_lt hw
  | applyDelegation st recover now sig d e n dl hr ih =>
    rw [(applyDelegation_frame recover now st sig d e n dl).1]; exact ih
  | createProposal st now pid title descr closesAt hr ih =>
    rw [(createProposal_frame now st pid title descr closesAt).1]; exact ih
  | vote st now pid voter choice hr ih =>
    rw [(vote_frame now st pid voter choice).1]; exact ih

/-- Walk specification for _resolve_final_delegate on an acyclic dict:
starting from current with a seen set whose members all lead to current in
one or more steps, the walk ends, within the key budget left by seen, at a
node with no outgoing edge. -/
theorem resolveAux_spec (g : List (Addr × Addr)) (hacy : Acyclic g) :
    ∀ current seen,
      (∀ s ∈ seen, ∃ j, 1 ≤ j ∧ stepN g j s = some current) →
      ∃ k, k ≤ (keysF g \ seen).card ∧
        stepN g k current = some (resolveAux g current seen) ∧
        lookupA g (resolveAux g current seen) = none := by
  intro current seen hinv
  induction current, seen using resolveAux.induct g with
  | case1 current seen hnone =>
    refine ⟨0, Nat.zero_le _, ?_, ?_⟩
    · rw [resolveAux_none g current seen hnone]; rfl
    · rw [resolveAux_none g current seen hnone]; exact hnone
  | case2 current seen nxt hl hseen =>
    obtain ⟨j, hj1, hjs⟩ := hinv current hseen
    obtain ⟨j', hj'⟩ : ∃ j', j = j' + 1 := ⟨j - 1, by omega⟩
    rw [hj'] at hjs
    exact absurd hjs (hacy current j')
  | case3 current seen nxt hl hseen ih =>
    have hinv' : ∀ s ∈ insert current seen, ∃ j, 1 ≤ j ∧ stepN g j s = some nxt := by
      intro s hs
      rcases Finset.mem_insert.mp hs with hs | hs
      · refine ⟨1, le_refl 1, ?_⟩
        rw [hs]
        simp [stepN, hl]
      · obtain ⟨j, hj1, hjs⟩ := hinv s hs
        refine ⟨j + 1, by omega, ?_⟩
        rw [stepN_add, hjs]
        simp [stepN, hl]
    obtain ⟨k, hk, hks, hkend⟩ := ih hinv'
    rw [resolveAux_some g current nxt seen hl, if_neg hseen]
    refine ⟨k + 1, ?_, ?_, hkend⟩
    · have hcur : current ∈ keysF g \ seen := Finset.mem_sdiff.mpr
        ⟨lookupA_some_mem_keysF g current nxt hl, hseen⟩
      have : (keysF g \ insert current seen).card = ((keysF g \ seen).erase current).card := by
        rw [Finset.sdiff_insert]
      rw [this, Finset.card_erase_of_mem hcur] at hk
      have hpos : 0 < (keysF g \ seen).card := Finset.card_pos.mpr ⟨current, hcur⟩
      omega
    · have : stepN g (1 + k) current = (stepN g 1 current).bind (stepN g k) := stepN_add ..
      rw [Nat.add_comm] at this
      rw [this]
      simp [stepN, hl]
      exact hks

theorem valueSum_setk_bucket (m : List (Addr × Int)) (k : Addr) (w : Int) :
    valueSum (setk m k (lookupD m k 0 + w)) = valueSum m + w := by
  induction m with
  | nil => simp [setk, lookupD, lookupA, valueSum]
  | cons p rest ih =>
    by_cases hk : p.1 = k
    · simp only [setk, if_pos hk, lookupD, lookupA, if_pos hk]
      simp [valueSum]
      ring
    · simp only [setk, if_neg hk, lookupD, lookupA, if_neg hk]
      simp only [valueSum, List.map_cons, List.sum_cons]
      have := ih
      simp only [valueSum, lookupD] at this
      rw [this]
      ring

/-- Each accumulation step of get_effective_voting_power_map adds exactly
the processed weights to the total of the bucket dict. -/
theorem valueSum_powerFold (g : List (Addr × Addr)) (l : List (Addr × Int)) :
    ∀ acc : List (Addr × Int),
      valueSum (l.foldl
        (fun power p =>
          if p.2 = 0 then power
          else
            setk power (resolveFinalDelegate g p.1)
              (lookupD power (resolveFinalDelegate g p.1) 0 + p.2))
        acc) =
      valueSum acc + nonzeroWeightSum l := by
  induction l with
  | nil => intro acc; simp [nonzeroWeightSum]
  | cons p rest ih =>
    intro acc
    by_cases hz : p.2 = 0
    · simp only [List.foldl_cons, if_pos hz]
      rw [ih acc]
      simp only [nonzeroWeightSum, if_pos hz]
      ring
    · simp only [List.foldl_cons, if_neg hz]
      rw [ih, valueSum_setk_bucket]
      simp only [nonzeroWeightSum, if_neg hz]
      ring

/-- On non-negative weight dicts, skipping zeros is summing the positive
entries. -/
theorem nonzeroSum_eq_posWeightSum (l : List (Addr × Int))
    (h : ∀ p ∈ l, 0 ≤ p.2) :
    nonzeroWeightSum l = posWeightSum l := by
  induction l with
  | nil => rfl
  | cons p rest ih =>
    have hp : 0 ≤ p.2 := h p (List.mem_cons_self p rest)
    have hrest : ∀ q ∈ rest, 0 ≤ q.2 := fun q hq => h q (List.mem_cons_of_mem p hq)
    rw [nonzeroWeightSum, posWeightSum, ih hrest]
    by_cases hz : p.2 = 0
    · have hnp : ¬ 0 < p.2 := by omega
      rw [if_pos hz, if_neg hnp]
    · have hpos : 0 < p.2 := lt_of_le_of_ne hp (Ne.symm hz)
      rw [if_neg hz, if_pos hpos]

/-- The function _set_delegate leaves the delegation dict untouched whenever it raises. -/
theorem setDelegate_fail_unchanged (g : List (Addr × Addr)) (d e : Addr) (err : Err)
    (h : (setDelegate g d e).2 = some err) : (setDelegate g d e).1 = g := by
  by_cases hde : d = e
  · simp [setDelegate, hde] at h
  · by_cases hcyc : wouldCreateCycle g d e = true
    · simp [setDelegate, hde, hcyc]
    · simp [setDelegate, hde, hcyc] at h

/-- apply_delegation_signature leaves the whole state untouched whenever it
raises: every check precedes both mutations, and a cycle failure inside
_set_delegate hands back the unchanged dict. -/
theorem applyDelegation_fail_unchanged
    (recover : DelegationMessage → String → Option Addr) (now : Int)
    (st : VotingState) (sig : String) (d e : Addr) (n dl : Int)
    (h : ((applyDelegationSignature recover now st sig d e n dl).2).isSome = true) :
    (applyDelegationSignature recover now st sig d e n dl).1 = st := by
  by_cases h1 : now > dl
  · simp [applyDelegationSignature, h1]
  · by_cases h2 : n = getNonce st d
    · subst h2
      cases hrec : recover ⟨d, e, getNonce st d, dl⟩ sig with
      | none => simp [applyDelegationSignature, h1, hrec]
      | some r =>
        by_cases hr : r = d
        · cases hsd : setDelegate st.delegateOf d e with
          | mk g err =>
            cases err with
            | some e' =>
              have hg : g = st.delegateOf := by
                have := setDelegate_fail_unchanged st.delegateOf d e e'
                  (by rw [hsd])
                rw [hsd] at this
                exact this
              simp [applyDelegationSignature, h1, hrec, hr, hsd, hg]
            | none =>
              simp [applyDelegationSignature, h1, hrec, hr, hsd] at h
        · simp [applyDelegationSignature, h1, hrec, hr]
    · simp [applyDelegationSignature, h1, h2]

/-- A normally returning apply_delegation_signature passed every check and
performed exactly the two mutations: the _set_delegate edge update and the
nonce bump of the delegator. -/
theorem applyDelegation_ok_eq
    (recover : DelegationMessage → String → Option Addr) (now : Int)
    (st : VotingState) (sig : String) (d e : Addr) (n dl : Int)
    (h : (applyDelegationSignature recover now st sig d e n dl).2 = none) :
    applyDelegationSignature recover now st sig d e n dl =
      ({ st with
          delegateOf := (setDelegate st.delegateOf d e).1,
          nonceOf := setk st.nonceOf d (getNonce st d + 1) }, none) := by
  by_cases h1 : now > dl
  · simp [applyDelegationSignature, h1] at h
  · by_cases h2 : n = getNonce st d
    · subst h2
      cases hrec : recover ⟨d, e, getNonce st d, dl⟩ sig with
      | none => simp [applyDelegationSignature, h1, hrec] at h
      | some r =>
        by_cases hr : r = d
        · cases hsd : setDelegate st.delegateOf d e with
          | mk g err =>
            cases err with
            | some e' =>
              simp [applyDelegationSignature, h1, hrec, hr, hsd] at h
            | none =>
              simp [applyDelegationSignature, h1, hrec, hr, hsd]
        · simp [applyDelegationSignature, h1, hrec, hr] at h
    · simp [applyDelegationSignature, h1, h2] at h

theorem stPreAB_eq :
    stPreAB = ⟨[("0xa", 100), ("0xb", 50)], [], [("0xa", 0), ("0xb", 0)], []⟩ := by
  simp [stPreAB, addVoter, initialState, lookupA, setk]

theorem scenarioABRun_eq :
    scenarioABRun =
      (⟨[("0xa", 100), ("0xb", 50)], [("0xa", "0xb")],
        [("0xa", 1), ("0xb", 0)], []⟩, none) := by
  rw [scenarioABRun, stPreAB_eq]
  simp [applyDelegationSignature, getNonce, lookupD, lookupA, recoverOk,
    setDelegate, wouldCreateCycle, wouldCreateCycleAux_none, setk]

theorem scenarioAB_eq :
    scenarioAB = ⟨[("0xa", 100), ("0xb", 50)], [("0xa", "0xb")],
      [("0xa", 1), ("0xb", 0)], []⟩ := by
  rw [scenarioAB, scenarioABRun_eq]

theorem scenarioUnregRun_eq :
    scenarioUnregRun =
      (⟨[("0xa", 100)], [("0xa", "0xb")], [("0xa", 1)], []⟩, none) := by
  rw [scenarioUnregRun]
  simp [applyDelegationSignature, addVoter, initialState, getNonce, lookupD,
    lookupA, recoverOk, setDelegate, wouldCreateCycle, wouldCreateCycleAux_none,
    setk]

theorem scenarioUnreg_eq :
    scenarioUnreg = ⟨[("0xa", 100)], [("0xa", "0xb")], [("0xa", 1)], []⟩ := by
  rw [scenarioUnreg, scenarioUnregRun_eq]

theorem scenarioUnregProp_eq :
    scenarioUnregProp =
      ⟨[("0xa", 100)], [("0xa", "0xb")], [("0xa", 1)],
       [("p1", ⟨"t", "d", 1000, [("yes", 0), ("no", 0), ("abstain", 0)], []⟩)]⟩ := by
  rw [scenarioUnregProp, scenarioUnreg_eq]
  simp [createProposal, lookupA, setk]

theorem scenarioABProp_eq :
    scenarioABProp =
      ⟨[("0xa", 100), ("0xb", 50)], [("0xa", "0xb")], [("0xa", 1), ("0xb", 0)],
       [("p1", ⟨"t", "d", 1000, [("yes", 0), ("no", 0), ("abstain", 0)], []⟩)]⟩ := by
  rw [scenarioABProp, scenarioAB_eq]
  simp [createProposal, lookupA, setk]

/-- C7: for every delegator and every prior edge configuration,
_set_delegate with delegatee equal to delegator always succeeds, removes
the delegator's outgoing edge, changes no other address's edge, and makes
the delegator its own final delegate again. -/
theorem C7_self_delegation (g : List (Addr × Addr)) (d : Addr) :
    setDelegate g d d = (delk g d, none) ∧
    lookupA (delk g d) d = none ∧
    (∀ a, a ≠ d → lookupA (delk g d) a = lookupA g a) ∧
    resolveFinalDelegate (delk g d) d = d := by
  refine ⟨?_, lookupA_delk_self g d, fun a ha => lookupA_delk_ne g d a ha, ?_⟩
  · unfold setDelegate
    rw [if_pos rfl]
  · unfold resolveFinalDelegate
    rw [resolveAux_none (delk g d) d ∅ (lookupA_delk_self g d)]

/-- Witness for C7 at the edge dict [("0xa", "0xb")] with delegator "0xa"
and the other address "0xb". -/
theorem C7_self_delegation_witness :
    setDelegate [("0xa", "0xb")] "0xa" "0xa" = (delk [("0xa", "0xb")] "0xa", none) ∧
    lookupA (delk [("0xa", "0xb")] "0xa") "0xb" = lookupA [("0xa", "0xb")] "0xb" := by
  have h := C7_self_delegation [("0xa", "0xb")] "0xa"
  exact ⟨h.1, h.2.2.1 "0xb" (by decide)⟩

/-- C8: create_proposal fails DuplicateProposal when the id exists and
InvalidClosingTime when closes_at is not in the future, storing nothing on
either failure; on success it stores the proposal with zero tallies for
yes, no and abstain and an empty voted set. -/
theorem C8_createProposal_checks (now : Int) (st : VotingState)
    (pid title descr : String) (closesAt : Int) :
    ((lookupA st.proposals pid).isSome = true →
      createProposal now st pid title descr closesAt =
        (st, some Err.duplicateProposal)) ∧
    (lookupA st.proposals pid = none → closesAt ≤ now →
      createProposal now st pid title descr closesAt =
        (st, some Err.invalidClosingTime)) ∧
    (lookupA st.proposals pid = none → now < closesAt →
      createProposal now st pid title descr closesAt =
        ({ st with proposals := setk st.proposals pid (mkProposal title descr closesAt) },
         none)) := by
  refine ⟨?_, ?_, ?_⟩
  · intro h
    simp [createProposal, h]
  · intro h1 h2
    simp [createProposal, h1, h2]
  · intro h1 h2
    simp [createProposal, mkProposal, h1, not_le.mpr h2]

/-- Witness for C8: duplicate id on the stored proposal "p1", a past
closing time on a fresh ledger, and a successful creation. -/
theorem C8_createProposal_checks_witness :
    createProposal 0 scenarioUnregProp "p1" "t2" "d2" 500 =
      (scenarioUnregProp, some Err.duplicateProposal) ∧
    createProposal 5 initialState "q" "t" "d" 3 =
      (initialState, some Err.invalidClosingTime) ∧
    createProposal 0 initialState "q" "t" "d" 9 =
      ({ initialState with proposals := setk initialState.proposals "q" (mkProposal "t" "d" 9) },
       none) := by
  refine ⟨(C8_createProposal_checks 0 scenarioUnregProp "p1" "t2" "d2" 500).1 ?_,
    (C8_createProposal_checks 5 initialState "q" "t" "d" 3).2.1 rfl (by decide),
    (C8_createProposal_checks 0 initialState "q" "t" "d" 9).2.2 rfl (by decide)⟩
  rw [scenarioUnregProp_eq]
  simp [lookupA]

/-- C9: in every reachable ledger state, _resolve_final_delegate reaches
its result from the queried address by following at most N existing edges,
where N is the number of addresses with an outgoing edge, and the result
has no outgoing edge (it is the first such address on the chain, since
every earlier chain node has one).  The Lean model of the walk is total by
construction, which is the never-loops-infinitely part of the claim even
for a dict that contained a cycle. -/
theorem C9_resolve_terminates (st : VotingState) (h : Reachable st) (a : Addr) :
    ∃ k, k ≤ (keysF st.delegateOf).card ∧
      stepN st.delegateOf k a = some (resolveFinalDelegate st.delegateOf a) ∧
      lookupA st.delegateOf (resolveFinalDelegate st.delegateOf a) = none := by
  have hspec := resolveAux_spec st.delegateOf (reachable_acyclic st h) a ∅
    (by intro s hs; simp at hs)
  simpa [resolveFinalDelegate, Finset.sdiff_empty] using hspec

/-- Witness for C9 at the freshly constructed ledger and address "0xa". -/
theorem C9_resolve_terminates_witness :
    ∃ k, k ≤ (keysF initialState.delegateOf).card ∧
      stepN initialState.delegateOf k "0xa" =
        some (resolveFinalDelegate initialState.delegateOf "0xa") ∧
      lookupA initialState.delegateOf
        (resolveFinalDelegate initialState.delegateOf "0xa") = none :=
  C9_resolve_terminates initialState Reachable.init "0xa"

/-- C4: weight conservation.  In every reachable ledger state the values of
get_effective_voting_power_map sum to the sum of the positive voter-weight
entries: delegation neither creates nor destroys weight and zero-weight
voters contribute nothing. -/
theorem C4_weight_conservation (st : VotingState) (h : Reachable st) :
    valueSum (getEffectivePowerMap st) = posWeightSum st.voterWeight := by
  unfold getEffectivePowerMap
  rw [valueSum_powerFold st.delegateOf st.voterWeight []]
  rw [nonzeroSum_eq_posWeightSum st.voterWeight (reachable_weights_nonneg st h)]
  simp [valueSum]

/-- Witness for C4 at the reachable state with voters "0xa" (weight 100)
and "0xb" (weight 50). -/
theorem C4_weight_conservation_witness :
    valueSum (getEffectivePowerMap stPreAB) = posWeightSum stPreAB.voterWeight :=
  C4_weight_conservation stPreAB
    (Reachable.addVoter ((addVoter initialState "0xa" 100).1) "0xb" 50
      (Reachable.addVoter initialState "0xa" 100 Reachable.init))

/-- C3 counterexample: in the exact claimed state (voter "0xa" weight 100,
voter "0xb" weight 50, accepted delegation "0xa" -> "0xb", nothing else),
get_effective_voting_power "0xa" is 150, not 0: "0xa"'s final delegate is
"0xb" and the bucket of "0xb" holds both weights. -/
theorem C3_effectivePower_counterexample :
    scenarioABRun.2 = none ∧
    getEffectiveVotingPower scenarioAB "0xb" = 150 ∧
    getEffectiveVotingPower scenarioAB "0xa" ≠ 0 := by
  refine ⟨by rw [scenarioABRun_eq], ?_, ?_⟩
  · rw [scenarioAB_eq]
    simp [getEffectiveVotingPower, getEffectivePowerMap, resolveFinalDelegate,
      resolveAux_none, resolveAux_some, lookupA, lookupD, setk]
  · rw [scenarioAB_eq]
    simp [getEffectiveVotingPower, getEffectivePowerMap, resolveFinalDelegate,
      resolveAux_none, resolveAux_some, lookupA, lookupD, setk]

/-- C3 amended: in the state where voter A has weight 100, voter B weight
50 and A's delegation to B has been accepted, effectivePower(B) returns 150
and effectivePower(A) also returns 150: the function resolves the queried
address's final delegate (B in both cases) and looks up that delegate's
bucket, so A's query reads B's aggregated bucket rather than 0. -/
theorem C3_effectivePower_amended :
    scenarioABRun.2 = none ∧
    getEffectiveVotingPower scenarioAB "0xb" = 150 ∧
    getEffectiveVotingPower scenarioAB "0xa" = 150 := by
  refine ⟨by rw [scenarioABRun_eq], ?_, ?_⟩
  · rw [scenarioAB_eq]
    simp [getEffectiveVotingPower, getEffectivePowerMap, resolveFinalDelegate,
      resolveAux_none, resolveAux_some, lookupA, lookupD, setk]
  · rw [scenarioAB_eq]
    simp [getEffectiveVotingPower, getEffectivePowerMap, resolveFinalDelegate,
      resolveAux_none, resolveAux_some, lookupA, lookupD, setk]

/-- C10: registration via add_voter is not required for delegation: an
update between two never-registered addresses is accepted, an accepted
update to the unregistered delegatee "0xb" makes "0xb" a key of the
effective power map holding the full delegated weight 100, and "0xb" then
casts a vote with that power. -/
theorem C10_unregistered_delegatee :
    (applyDelegationSignature recoverOk 0 initialState "sig" "0xc" "0xd" 0 1000).2
      = none ∧
    scenarioUnregRun.2 = none ∧
    lookupA scenarioUnreg.voterWeight "0xb" = none ∧
    lookupA (getEffectivePowerMap scenarioUnreg) "0xb" = some 100 ∧
    (vote 0 scenarioUnregProp "p1" "0xb" "yes").2 =
      Except.ok (100, [("yes", 100), ("no", 0), ("abstain", 0)]) := by
  refine ⟨?_, by rw [scenarioUnregRun_eq], ?_, ?_, ?_⟩
  · simp [applyDelegationSignature, initialState, getNonce, lookupD, lookupA,
      recoverOk, setDelegate, wouldCreateCycle, wouldCreateCycleAux_none, setk]
  · rw [scenarioUnreg_eq]
    simp [lookupA]
  · rw [scenarioUnreg_eq]
    simp [getEffectivePowerMap, resolveFinalDelegate, resolveAux_none,
      resolveAux_some, lookupA, lookupD, setk]
  · rw [scenarioUnregProp_eq]
    simp [vote, lookupA, lookupD, setk, resolveFinalDelegate, resolveAux_none,
      resolveAux_some, getEffectivePowerMap]

/-- C1: the delegation edge dict is acyclic in every reachable ledger
state; _set_delegate with delegator distinct from delegatee fails with
CycleDetected and leaves the dict unchanged exactly when the forward walk
from the delegatee (_would_create_cycle, which revisit-checks its seen set
and stops on reaching the delegator) reports a cycle, and otherwise
commits the edge, overwriting any prior outgoing edge of the delegator,
with the committed dict still acyclic. -/
theorem C1_setDelegate_acyclic_invariant :
    (∀ st, Reachable st → Acyclic st.delegateOf) ∧
    (∀ g d e, d ≠ e →
      (wouldCreateCycle g d e = true →
        setDelegate g d e = (g, some Err.cycleDetected)) ∧
      (wouldCreateCycle g d e = false →
        setDelegate g d e = (setk g d e, none) ∧
        (Acyclic g → Acyclic (setk g d e)))) := by
  refine ⟨reachable_acyclic, ?_⟩
  intro g d e hde
  constructor
  · intro hcyc
    unfold setDelegate
    rw [if_neg hde, if_pos hcyc]
  · intro hcyc
    unfold setDelegate
    rw [if_neg hde, if_neg (by simp [hcyc])]
    refine ⟨rfl, fun hacy => acyclic_setk g d e hacy hde ?_⟩
    exact wouldCreateCycleAux_false g d e ∅ (by simpa [wouldCreateCycle] using hcyc)

/-- Witness for C1: the fresh ledger is acyclic, inserting "0xa" -> "0xb"
on top of the edge "0xb" -> "0xa" is rejected with the dict unchanged, and
committing "0xa" -> "0xb" on the empty dict keeps acyclicity. -/
theorem C1_setDelegate_acyclic_invariant_witness :
    Acyclic initialState.delegateOf ∧
    setDelegate [("0xb", "0xa")] "0xa" "0xb" =
      ([("0xb", "0xa")], some Err.cycleDetected) ∧
    setDelegate ([] : List (Addr × Addr)) "0xa" "0xb" = ([("0xa", "0xb")], none) ∧
    Acyclic [("0xa", "0xb")] := by
  have h1 := C1_setDelegate_acyclic_invariant.1 initialState Reachable.init
  have h2 := (C1_setDelegate_acyclic_invariant.2 [("0xb", "0xa")] "0xa" "0xb"
    (by decide)).1 (by
      simp [wouldCreateCycle, wouldCreateCycleAux_some, wouldCreateCycleAux_none,
        lookupA])
  have h3 := (C1_setDelegate_acyclic_invariant.2 ([] : List (Addr × Addr)) "0xa" "0xb"
    (by decide)).2 (by
      simp [wouldCreateCycle, wouldCreateCycleAux_none, lookupA])
  have hnil : Acyclic ([] : List (Addr × Addr)) := by
    intro a k hc
    simp [stepN, lookupA] at hc
  exact ⟨h1, h2, h3.1, h3.2 hnil⟩

/-- C2: apply_delegation_signature is an all-or-nothing transaction: every
failure (Expired when now > deadline, NonceMismatch when the supplied nonce
differs from the stored one, SignatureInvalid when recovery fails,
NotDelegator when the recovered signer differs from the delegator, and
CycleDetected propagated from _set_delegate) returns the state exactly as
it was before the call, and a normal return performs exactly the edge
update and the delegator's nonce advance. -/
theorem C2_applyDelegation_all_or_nothing
    (recover : DelegationMessage → String → Option Addr) (now : Int)
    (st : VotingState) (sig : String) (d e : Addr) (n dl : Int) :
    (((applyDelegationSignature recover now st sig d e n dl).2).isSome = true →
      (applyDelegationSignature recover now st sig d e n dl).1 = st) ∧
    (now > dl →
      applyDelegationSignature recover now st sig d e n dl =
        (st, some Err.expired)) ∧
    (now ≤ dl → n ≠ getNonce st d →
      applyDelegationSignature recover now st sig d e n dl =
        (st, some Err.nonceMismatch)) ∧
    (now ≤ dl → n = getNonce st d → recover ⟨d, e, n, dl⟩ sig = none →
      applyDelegationSignature recover now st sig d e n dl =
        (st, some Err.signatureInvalid)) ∧
    (now ≤ dl → n = getNonce st d →
      ∀ r, recover ⟨d, e, n, dl⟩ sig = some r → r ≠ d →
        applyDelegationSignature recover now st sig d e n dl =
          (st, some Err.notDelegator)) ∧
    (now ≤ dl → n = getNonce st d → recover ⟨d, e, n, dl⟩ sig = some d →
      d ≠ e → wouldCreateCycle st.delegateOf d e = true →
      applyDelegationSignature recover now st sig d e n dl =
        (st, some Err.cycleDetected)) ∧
    ((applyDelegationSignature recover now st sig d e n dl).2 = none →
      applyDelegationSignature recover now st sig d e n dl =
        ({ st with
            delegateOf := (setDelegate st.delegateOf d e).1,
            nonceOf := setk st.nonceOf d (getNonce st d + 1) }, none)) := by
  refine ⟨applyDelegation_fail_unchanged recover now st sig d e n dl, ?_, ?_, ?_, ?_,
    ?_, applyDelegation_ok_eq recover now st sig d e n dl⟩
  · intro h1
    simp [applyDelegationSignature, h1]
  · intro h1 h2
    simp [applyDelegationSignature, not_lt.mpr h1, h2]
  · intro h1 h2 h3
    subst h2
    simp [applyDelegationSignature, not_lt.mpr h1, h3]
  · intro h1 h2 r hr hrd
    subst h2
    simp [applyDelegationSignature, not_lt.mpr h1, hr, hrd]
  · intro h1 h2 hrec hde hcyc
    subst h2
    simp [applyDelegationSignature, not_lt.mpr h1, hrec, setDelegate, hde, hcyc]

/-- Witness for C2: on the ledger where "0xa" delegates to "0xb", the
update "0xb" -> "0xa" (nonce 0, valid signature, deadline in the future)
fails CycleDetected and the state comes back unchanged. -/
theorem C2_applyDelegation_all_or_nothing_witness :
    applyDelegationSignature recoverOk 0 scenarioAB "sig" "0xb" "0xa" 0 1000 =
      (scenarioAB, some Err.cycleDetected) := by
  have h := (C2_applyDelegation_all_or_nothing recoverOk 0 scenarioAB "sig"
    "0xb" "0xa" 0 1000).2.2.2.2.2.1
  exact h (by decide)
    (by rw [scenarioAB_eq]; simp [getNonce, lookupD, lookupA])
    rfl
    (by decide)
    (by rw [scenarioAB_eq]
        simp [wouldCreateCycle, wouldCreateCycleAux_some, wouldCreateCycleAux_none,
          lookupA])

/-- C5: an accepted delegation update increments exactly the delegator's
nonce by one and leaves every other address's nonce, the voter-weight dict
and the proposal dict unchanged. -/
theorem C5_accepted_nonce_advance
    (recover : DelegationMessage → String → Option Addr) (now : Int)
    (st : VotingState) (sig : String) (d e : Addr) (n dl : Int)
    (st' : VotingState)
    (h : applyDelegationSignature recover now st sig d e n dl = (st', none)) :
    getNonce st' d = getNonce st d + 1 ∧
    (∀ a, a ≠ d → getNonce st' a = getNonce st a) ∧
    st'.voterWeight = st.voterWeight ∧
    st'.proposals = st.proposals := by
  have hok := applyDelegation_ok_eq recover now st sig d e n dl (by rw [h])
  rw [h] at hok
  simp only [Prod.mk.injEq] at hok
  obtain ⟨hst, -⟩ := hok
  subst hst
  refine ⟨?_, ?_, rfl, rfl⟩
  · simp [getNonce, lookupD, lookupA_setk_self]
  · intro a ha
    simp [getNonce, lookupD, lookupA_setk_ne st.nonceOf d a _ ha]

/-- Witness for C5 at the accepted "0xa" -> "0xb" update of the A/B
scenario, checking the other address "0xb". -/
theorem C5_accepted_nonce_advance_witness :
    getNonce scenarioAB "0xa" = getNonce stPreAB "0xa" + 1 ∧
    getNonce scenarioAB "0xb" = getNonce stPreAB "0xb" ∧
    scenarioAB.voterWeight = stPreAB.voterWeight ∧
    scenarioAB.proposals = stPreAB.proposals := by
  have hrun : applyDelegationSignature recoverOk 0 stPreAB "sig" "0xa" "0xb" 0 1000 =
      (scenarioAB, none) := by
    show scenarioABRun = (scenarioAB, none)
    rw [scenarioABRun_eq, scenarioAB_eq]
  have h := C5_accepted_nonce_advance recoverOk 0 stPreAB "sig" "0xa" "0xb" 0 1000
    scenarioAB hrun
  exact ⟨h.1, h.2.1 "0xb" (by decide), h.2.2.1, h.2.2.2⟩

/-- C6: vote on an existing, open proposal with a valid choice fails
DelegatedVoterCannotVote exactly when the voter is not its own final
delegate; for a voter f that is its own final delegate it fails
AlreadyVoted exactly when f is in the proposal's voted set, NoVotingPower
exactly when f's effective power is not positive, and otherwise adds that
power to the chosen tally, records f in the voted set and returns the power
together with the updated tallies snapshot — so each final holder's weight
is counted at most once per proposal. -/
theorem C6_vote_behavior (now : Int) (st : VotingState) (pid : String)
    (voter : Addr) (choice : String) (prop : Proposal)
    (hp : lookupA st.proposals pid = some prop)
    (hc : choice = "yes" ∨ choice = "no" ∨ choice = "abstain")
    (hopen : now ≤ prop.closesAt) :
    (resolveFinalDelegate st.delegateOf voter ≠ voter →
      vote now st pid voter choice =
        (st, Except.error Err.delegatedVoterCannotVote)) ∧
    (resolveFinalDelegate st.delegateOf voter = voter →
      (voter ∈ prop.voted →
        vote now st pid voter choice = (st, Except.error Err.alreadyVoted)) ∧
      (voter ∉ prop.voted → getEffectiveVotingPower st voter ≤ 0 →
        vote now st pid voter choice = (st, Except.error Err.noVotingPower)) ∧
      (voter ∉ prop.voted → 0 < getEffectiveVotingPower st voter →
        vote now st pid voter choice =
          ({ st with proposals := setk st.proposals pid ({ prop with
              tallies := setk prop.tallies choice
                (lookupD prop.tallies choice 0 + getEffectiveVotingPower st voter),
              voted := voter :: prop.voted }) },
           Except.ok (getEffectiveVotingPower st voter,
             setk prop.tallies choice
               (lookupD prop.tallies choice 0 + getEffectiveVotingPower st voter))))) := by
  have hvote : vote now st pid voter choice =
      (let finalHolder := resolveFinalDelegate st.delegateOf voter
       if voter ≠ finalHolder then
         (st, Except.error Err.delegatedVoterCannotVote)
       else if finalHolder ∈ prop.voted then
         (st, Except.error Err.alreadyVoted)
       else
         let weight := lookupD (getEffectivePowerMap st) finalHolder 0
         if weight ≤ 0 then (st, Except.error Err.noVotingPower)
         else
           let newTallies :=
             setk prop.tallies choice (lookupD prop.tallies choice 0 + weight)
           ({ st with
               proposals := setk st.proposals pid
                 { prop with
                     tallies := newTallies,
                     voted := finalHolder :: prop.voted } },
            Except.ok (weight, newTallies))) := by
    rw [vote, hp]
    simp only
    rw [if_neg (not_not_intro hc), if_neg (not_lt.mpr hopen)]
  constructor
  · intro hne
    rw [hvote]
    simp only
    rw [if_pos (Ne.symm hne)]
  · intro hf
    have hpow : getEffectiveVotingPower st voter =
        lookupD (getEffectivePowerMap st) voter 0 := by
      unfold getEffectiveVotingPower
      rw [hf]
    refine ⟨?_, ?_, ?_⟩
    · intro hv
      rw [hvote]
      simp only [hf]
      rw [if_neg (not_not_intro rfl), if_pos hv]
    · intro hv hw
      rw [hvote]
      simp only [hf]
      rw [if_neg (not_not_intro rfl), if_neg hv, if_pos (by rw [← hpow]; exact hw)]
    · intro hv hw
      rw [hvote]
      simp only [hf]
      rw [if_neg (not_not_intro rfl), if_neg hv,
        if_neg (by rw [← hpow]; exact not_le.mpr hw)]
      rw [← hpow]

/-- Witness for C6: on the A/B scenario with open proposal "p1", the
delegated voter "0xa" cannot cast a vote. -/
theorem C6_vote_behavior_witness :
    vote 0 scenarioABProp "p1" "0xa" "yes" =
      (scenarioABProp, Except.error Err.delegatedVoterCannotVote) := by
  have h := C6_vote_behavior 0 scenarioABProp "p1" "0xa" "yes"
    (mkProposal "t" "d" 1000)
    (by rw [scenarioABProp_eq]; simp [lookupA, mkProposal])
    (Or.inl rfl)
    (by decide)
  exact h.1 (by
    rw [scenarioABProp_eq]
    simp [resolveFinalDelegate, resolveAux_some, resolveAux_none, lookupA])

end VotingDel
